import Mathlib

/-!
Variant serialisation and Object signals in `minimal_variant_example.cpp`.

A shallow embedding of the classes `Variant` and `Object` of
`minimal_variant_example.cpp` and of the standard-library calls they make
(`std::string::rfind`, `std::string::substr`, `std::to_string(int)`,
`std::stoi`, `std::unordered_map::operator[]` and `find`), followed by theorems
about `Variant::serialize`, `Variant::deserialize`, the constructors and the
accessors, and about the identifiers and the signals of `Object`.

Conventions of the embedding:

* `std::string` is a list of `char`s (`CppString`);
* `int` is a mathematical integer together with the range `INT_MIN .. INT_MAX`
  where the range matters; the increment of an `int` wraps modulo `2 ^ 32`;
* a C++ function that can throw returns `Except CppException _`;
* a method that changes the object returns the new object; the static counter
  `Object::next_id` and the state `W` that the signal handlers act on are
  passed explicitly;
* a call of a signal handler returns or throws, and may assign to the `Variant`
  it received by reference (`HandlerResult`).
-/

namespace MinimalVariant

/-! Standard-library layer -/

/-- The type `std::string`: a finite sequence of `char`. -/
abbrev CppString := List Char

/-- The exceptions that the standard-library calls of the source can throw
(`std::invalid_argument` and `std::out_of_range`). -/
inductive CppException where
  | invalid_argument
  | out_of_range
deriving DecidableEq, Repr

deriving instance DecidableEq for Except

/-- Smallest value of a 32-bit `int`. -/
def INT_MIN : Int := -2147483648

/-- Largest value of a 32-bit `int`. -/
def INT_MAX : Int := 2147483647

/-- The value `std::string::npos`, the largest `size_t`. -/
def npos : Nat := 2 ^ 64 - 1

/-- Whether `pat` occurs in `str` at index `i`, that is
`str.compare(i, pat.size(), pat) == 0`. -/
def matchAt (str pat : CppString) (i : Nat) : Bool :=
  (str.drop i).take pat.length == pat

/-- The backwards search of `rfind`: the largest index `j ≤ i` at which `pat`
occurs in `str`, or `npos`. -/
def rfindFrom (str pat : CppString) : Nat → Nat
  | 0 => if matchAt str pat 0 then 0 else npos
  | i + 1 => if matchAt str pat (i + 1) then i + 1 else rfindFrom str pat i

/-- The call `str.rfind(pat, pos)`: the largest index not above `pos` at which
`pat` occurs in `str`, or `npos` when there is none. -/
def rfind (str pat : CppString) (pos : Nat) : Nat :=
  if str.length < pat.length then npos
  else rfindFrom str pat (min pos (str.length - pat.length))

/-- The call `str.substr(pos)`: the characters from index `pos` to the end;
throws `std::out_of_range` when `pos > str.size()`. -/
def substr (str : CppString) (pos : Nat) : Except CppException CppString :=
  if str.length < pos then .error .out_of_range else .ok (str.drop pos)

/-- The character of the decimal digit `d`, `'0' + d`. -/
def digitChar (d : Nat) : Char := Char.ofNat (48 + d)

/-- The test `isdigit(c)`. -/
def isdigit (c : Char) : Bool := decide (48 ≤ c.toNat) && decide (c.toNat ≤ 57)

/-- The test `isspace(c)` of the "C" locale: space, `\t`, `\n`, `\v`, `\f`, `\r`. -/
def isspace (c : Char) : Bool := c.toNat == 32 || (decide (9 ≤ c.toNat) && decide (c.toNat ≤ 13))

/-- The value of a digit character, `c - '0'`. -/
def digitVal (c : Char) : Nat := c.toNat - 48

/-- Decimal digits of `n`, most significant first, prepended to `acc`; `fuel`
bounds the number of digits produced. -/
def decimalDigits : Nat → Nat → CppString → CppString
  | 0, _, acc => acc
  | fuel + 1, n, acc =>
    if n / 10 = 0 then digitChar (n % 10) :: acc
    else decimalDigits fuel (n / 10) (digitChar (n % 10) :: acc)

/-- The call `std::to_string(int)` (the `%d` rendering): the decimal digits of
the absolute value, preceded by `-` for a negative number. -/
def to_string (i : Int) : CppString :=
  if i < 0 then '-' :: decimalDigits (i.natAbs + 1) i.natAbs []
  else decimalDigits (i.natAbs + 1) i.natAbs []

/-- The number denoted by a sequence of decimal digits, read left to right
starting from `acc`. -/
def digitsValue (acc : Nat) (ds : CppString) : Nat :=
  ds.foldl (fun a c => a * 10 + digitVal c) acc

/-- The sign that `strtol` accepts in front of the digits: the flag
"negative" and the rest of the text. -/
def stripSign : CppString → Bool × CppString
  | '-' :: t => (true, t)
  | '+' :: t => (false, t)
  | s => (false, s)

/-- The call `std::stoi(str)` (base 10): `strtol` skips leading white space,
reads an optional sign and the longest run of decimal digits, and ignores
what follows; `std::invalid_argument` when there is no digit to convert,
`std::out_of_range` when the value does not fit an `int`. -/
def stoi (str : CppString) : Except CppException Int :=
  let signed := stripSign (str.dropWhile isspace)
  let ds := signed.2.takeWhile isdigit
  if ds.isEmpty then .error .invalid_argument
  else
    let r : Int := if signed.1 then -(digitsValue 0 ds : Int) else (digitsValue 0 ds : Int)
    if INT_MIN ≤ r ∧ r ≤ INT_MAX then .ok r else .error .out_of_range

/-! The class `Variant` -/

/-- The enumeration `Variant::Type`. -/
inductive VariantType where
  | TYPE_NIL
  | TYPE_BOOL
  | TYPE_INT
  | TYPE_STRING
deriving DecidableEq, Repr

/-- The anonymous union member `data` of `Variant`: either no member has been
written (`indeterminate`), or `_bool` is the active member, or `_int` is. -/
inductive VariantData where
  | indeterminate
  | _bool (b : Bool)
  | _int (i : Int)
deriving DecidableEq, Repr

/-- Reading `data._bool`. Only the read of the active member is defined in
C++; the other cases are given the value `false`. -/
def VariantData.read_bool : VariantData → Bool
  | ._bool b => b
  | _ => false

/-- Reading `data._int`. Only the read of the active member is defined in
C++; the other cases are given the value `0`. -/
def VariantData.read_int : VariantData → Int
  | ._int i => i
  | _ => 0

/-- The data members of `class Variant`: `type`, the union `data` and
`_string`. -/
structure Variant where
  type : VariantType
  data : VariantData
  _string : CppString
deriving DecidableEq, Repr

namespace Variant

/-- The constructor `Variant()`. -/
def new : Variant := ⟨.TYPE_NIL, .indeterminate, []⟩

/-- The constructor `Variant(bool b)`. -/
def ofBool (b : Bool) : Variant := ⟨.TYPE_BOOL, ._bool b, []⟩

/-- The constructor `Variant(int i)`. -/
def ofInt (i : Int) : Variant := ⟨.TYPE_INT, ._int i, []⟩

/-- The constructor `Variant(const std::string& s)`. -/
def ofString (s : CppString) : Variant := ⟨.TYPE_STRING, .indeterminate, s⟩

/-- The constructor `Variant(const char* s)`: `_string` is built from the C
string `s`, that is from its characters before the first NUL. -/
def ofCString (s : CppString) : Variant :=
  ⟨.TYPE_STRING, .indeterminate, s.takeWhile fun c => c != Char.ofNat 0⟩

/-- The method `get_type()`. -/
def get_type (v : Variant) : VariantType := v.type

/-- The method `as_bool()`: `type == TYPE_BOOL ? data._bool : false`. -/
def as_bool (v : Variant) : Bool :=
  if v.type = .TYPE_BOOL then v.data.read_bool else false

/-- The method `as_int()`: `type == TYPE_INT ? data._int : 0`. -/
def as_int (v : Variant) : Int :=
  if v.type = .TYPE_INT then v.data.read_int else 0

/-- The method `as_string()`: `type == TYPE_STRING ? _string : ""`. -/
def as_string (v : Variant) : CppString :=
  if v.type = .TYPE_STRING then v._string else []

/-- The method `serialize()`. The `default:` branch of the source has no
counterpart: `VariantType` has exactly the four enumerators. -/
def serialize (v : Variant) : CppString :=
  match v.type with
  | .TYPE_NIL => "nil".toList
  | .TYPE_BOOL => "bool:".toList ++ (if v.data.read_bool then "true".toList else "false".toList)
  | .TYPE_INT => "int:".toList ++ to_string v.data.read_int
  | .TYPE_STRING => "string:".toList ++ v._string

/-- The static method `Variant::deserialize(str)`; an exception thrown by
`substr` or `std::stoi` propagates to the caller. -/
def deserialize (str : CppString) : Except CppException Variant :=
  if str = "nil".toList then .ok Variant.new
  else if rfind str "bool:".toList 0 = 0 then
    (substr str 5).bind fun r => .ok (Variant.ofBool (r == "true".toList))
  else if rfind str "int:".toList 0 = 0 then
    (substr str 4).bind fun r => (stoi r).bind fun i => .ok (Variant.ofInt i)
  else if rfind str "string:".toList 0 = 0 then
    (substr str 7).bind fun r => .ok (Variant.ofString r)
  else .ok Variant.new

/-- A `Variant` as one of the four constructors of the class builds it; the
argument of `Variant(int)` is an `int`, hence within `INT_MIN .. INT_MAX`. -/
inductive Constructed : Variant → Prop where
  | nil : Constructed Variant.new
  | bool (b : Bool) : Constructed (Variant.ofBool b)
  | int (i : Int) (hlo : INT_MIN ≤ i) (hhi : i ≤ INT_MAX) : Constructed (Variant.ofInt i)
  | string (s : CppString) : Constructed (Variant.ofString s)

end Variant

/-- A valid decimal signed integer literal in the words of the specification:
an optional `-` followed by one or more decimal digits and nothing else. -/
def isIntLiteral : CppString → Bool
  | '-' :: ds => !ds.isEmpty && ds.all isdigit
  | ds => !ds.isEmpty && ds.all isdigit

/-- The parts of a text as `std::stoi` reads it: white space `ws`, an optional
sign `sg`, the run of digits `ds` that is converted, and the text `rest` that
is left; `rest` does not start with a digit, nor, when there is neither sign
nor digit, with white space or a sign. -/
def IntTextParts (ws sg ds rest : CppString) : Prop :=
  (∀ c ∈ ws, isspace c = true) ∧ (sg = [] ∨ sg = ['-'] ∨ sg = ['+']) ∧
  (∀ c ∈ ds, isdigit c = true) ∧
  (∀ c ∈ rest.head?, isdigit c = false ∧
    (sg = [] → ds = [] → isspace c = false ∧ c ≠ '-' ∧ c ≠ '+'))

/-- The number that the sign `sg` and the digits `ds` denote. -/
def signedValue (sg ds : CppString) : Int :=
  if sg = ['-'] then -(digitsValue 0 ds : Int) else (digitsValue 0 ds : Int)

/-- The integer value of an enumerator of `Variant::Type`. -/
def VariantType.toNat : VariantType → Nat
  | .TYPE_NIL => 0
  | .TYPE_BOOL => 1
  | .TYPE_INT => 2
  | .TYPE_STRING => 3

/-- The `switch (type)` of `serialize()` over the integer value `tag` of the
enumerator (`TYPE_NIL` is 0, `TYPE_BOOL` 1, `TYPE_INT` 2, `TYPE_STRING` 3), with
its `default:` branch. -/
def Variant.serialize_switch (tag : Nat) (v : Variant) : CppString :=
  match tag with
  | 0 => "nil".toList
  | 1 => "bool:".toList ++ (if v.data.read_bool then "true".toList else "false".toList)
  | 2 => "int:".toList ++ to_string v.data.read_int
  | 3 => "string:".toList ++ v._string
  | _ => []

/-! The class `Object` -/

/-- The value an `int` holds after an arithmetic result `x` is stored in it:
`x` modulo `2 ^ 32`, taken in `INT_MIN .. INT_MAX`. -/
def wrapInt (x : Int) : Int := (x - INT_MIN) % 2 ^ 32 + INT_MIN

/-- How a call `handler(value)` ends: the handler returns or it throws (an empty
`std::function` throws `std::bad_function_call`). In both cases the call leaves
the state `w` of its surroundings, and `value` is what the `Variant` that the
reference `value` designates holds afterwards; that object belongs to the
caller, who may have given the handler a way to assign to it. -/
inductive HandlerResult (W : Type) where
  | returned (w : W) (value : Variant)
  | thrown (w : W) (value : Variant)
deriving DecidableEq, Repr

/-- The state of the surroundings after the call. -/
def HandlerResult.world {W : Type} : HandlerResult W → W
  | .returned w _ => w
  | .thrown w _ => w

/-- The type `Object::SignalHandler`, `std::function<void(const Variant&)>`: a
handler receives what the reference `value` designates and the state `W` of its
surroundings, and ends as a `HandlerResult` says. The registry of the object is
not part of `W`: a handler neither connects to nor emits on the object it is
connected to. -/
abbrev SignalHandler (W : Type) := Variant → W → HandlerResult W

/-- An empty `std::function`: the call throws `std::bad_function_call` and
does nothing else. -/
def SignalHandler.empty (W : Type) : SignalHandler W := fun value w => .thrown w value

/-- The data members of an `Object`: `id` and the map `signals`, which gives
the vector of handlers stored under a name, or `none` when the map has no
entry for the name. -/
structure Object (W : Type) where
  id : Int
  signals : CppString → Option (List (SignalHandler W))

namespace Object

/-- The initial value of the static member `Object::next_id`. -/
def next_id_init : Int := 1

/-- The constructor `Object() : id(next_id++)`, given the current value of
`Object::next_id`: the new object, whose map is empty, and the value of
`Object::next_id` afterwards. -/
def new (W : Type) (next_id : Int) : Object W × Int :=
  (⟨next_id, fun _ => none⟩, wrapInt (next_id + 1))

/-- The method `get_id()`. -/
def get_id {W : Type} (o : Object W) : Int := o.id

/-- The method `connect`: `signals[signal_name]` is the vector stored under the
name, an empty one being inserted when there is none, and `push_back` adds the
handler at its end. -/
def connect {W : Type} (o : Object W) (signal_name : CppString)
    (handler : SignalHandler W) : Object W :=
  { o with
    signals := fun k =>
      if k = signal_name then some ((o.signals signal_name).getD [] ++ [handler])
      else o.signals k }

/-- The loop `for (auto& handler : it->second) handler(value);`: the handlers
are called from first to last, each on what `value` designates at that moment;
there is no `try`, so a handler that throws ends the loop and the exception
leaves it. -/
def call_handlers {W : Type} : List (SignalHandler W) → Variant → W → HandlerResult W
  | [], value, w => .returned w value
  | handler :: rest, value, w =>
    match handler value w with
    | .returned w1 value1 => call_handlers rest value1 w1
    | .thrown w1 value1 => .thrown w1 value1

/-- The method `emit_signal`, started in the state `w` of the surroundings:
`signals.find` looks the name up without inserting, and the loop calls the
handlers of the vector found. The result is the object afterwards and how the
call ends: it returns, or an exception of a handler leaves it. -/
def emit_signal {W : Type} (o : Object W) (signal_name : CppString) (value : Variant)
    (w : W) : Object W × HandlerResult W :=
  match o.signals signal_name with
  | none => (o, .returned w value)
  | some handlers => (o, call_handlers handlers value w)

/-- The objects built by `n` constructor calls in sequence, the first of which
finds `Object::next_id` equal to `next_id`. -/
def construct_sequence (W : Type) : Nat → Int → List (Object W)
  | 0, _ => []
  | n + 1, next_id => (Object.new W next_id).1 :: construct_sequence W n (Object.new W next_id).2

end Object

/-- The state of a program that works with an object `obj`: the static counter
`Object::next_id`, the object, the objects constructed after it, and the state
`world` that the handlers act on. -/
structure ProgramState (W : Type) where
  next_id : Int
  obj : Object W
  later : List (Object W)
  world : W

/-- An operation of the program: a method call on `obj`, or the construction of
a further `Object`. -/
inductive Operation (W : Type) where
  | connect (signal_name : CppString) (handler : SignalHandler W)
  | emit_signal (signal_name : CppString) (value : Variant)
  | get_id
  | construct

/-- The state after an operation; after an `emit_signal` that a handler's
exception left, it is the state in which the exception is caught. -/
def ProgramState.step {W : Type} (s : ProgramState W) : Operation W → ProgramState W
  | .connect signal_name handler => { s with obj := s.obj.connect signal_name handler }
  | .emit_signal signal_name value =>
    { s with
      obj := (s.obj.emit_signal signal_name value s.world).1
      world := (s.obj.emit_signal signal_name value s.world).2.world }
  | .get_id => s
  | .construct =>
    { s with
      later := s.later ++ [(Object.new W s.next_id).1]
      next_id := (Object.new W s.next_id).2 }

/-- The state after a sequence of operations. -/
def ProgramState.run {W : Type} (s : ProgramState W) (ops : List (Operation W)) :
    ProgramState W :=
  ops.foldl ProgramState.step s

/-- A handler that records its call: it appends its tag and the serialisation
of the value it received to a log, and returns. -/
def logHandler (tag : Nat) : SignalHandler (List (Nat × CppString)) :=
  fun v log => .returned (log ++ [(tag, v.serialize)]) v

theorem rfind_zero_iff (str pat : CppString) : rfind str pat 0 = 0 ↔ pat <+: str := by
  unfold rfind
  by_cases hlen : str.length < pat.length
  · simp only [hlen, if_true]
    constructor
    · intro h
      exact absurd h (by decide)
    · intro h
      have := h.length_le
      omega
  · simp only [hlen, if_false, Nat.zero_min, rfindFrom, matchAt, List.drop_zero]
    by_cases hm : (List.take pat.length str == pat) = true
    · simp only [hm, if_true, true_iff]
      rw [List.prefix_iff_eq_take]
      exact (beq_iff_eq.mp hm).symm
    · simp only [hm]
      constructor
      · intro h
        exact absurd h (by decide)
      · intro h
        rw [List.prefix_iff_eq_take] at h
        exact absurd (beq_iff_eq.mpr h.symm) hm

theorem digitChar_toNat (d : Nat) (h : d < 10) : (digitChar d).toNat = 48 + d := by
  interval_cases d <;> rfl

theorem isdigit_digitChar (d : Nat) (h : d < 10) : isdigit (digitChar d) = true := by
  simp [isdigit, digitChar_toNat d h]
  omega

theorem digitVal_digitChar (d : Nat) (h : d < 10) : digitVal (digitChar d) = d := by
  simp [digitVal, digitChar_toNat d h]

theorem digitsValue_append (a : Nat) (xs ys : CppString) :
    digitsValue a (xs ++ ys) = digitsValue (digitsValue a xs) ys := by
  simp [digitsValue, List.foldl_append]

/-- What `decimalDigits` produces when the fuel exceeds the number: a
non-empty run of digit characters in front of `acc` that denotes `n` and has
no leading zero (the single digit `0` for `n = 0`). -/
theorem decimalDigits_spec (fuel : Nat) : ∀ (n : Nat) (acc : CppString), n < fuel →
    ∃ ds : CppString, decimalDigits fuel n acc = ds ++ acc ∧ ds ≠ [] ∧
      (∀ c ∈ ds, isdigit c = true) ∧
      (∀ a, digitsValue a ds = a * 10 ^ ds.length + n) ∧
      (n = 0 → ds = [digitChar 0]) ∧ (n ≠ 0 → ds.head? ≠ some (digitChar 0)) := by
  induction fuel with
  | zero => intro n acc h; omega
  | succ fuel ih =>
    intro n acc hn
    by_cases hq : n / 10 = 0
    · have hlt : n < 10 := by omega
      have hmod : n % 10 = n := Nat.mod_eq_of_lt hlt
      refine ⟨[digitChar n], ?_, by simp, ?_, ?_, ?_, ?_⟩
      · simp [decimalDigits, hq, hmod]
      · intro c hc
        rw [List.mem_singleton] at hc
        rw [hc]
        exact isdigit_digitChar n hlt
      · intro a
        simp [digitsValue, digitVal_digitChar n hlt]
      · intro h0
        rw [h0]
      · intro h0 hhead
        simp only [List.head?_cons, Option.some.injEq] at hhead
        have h1 := congrArg Char.toNat hhead
        rw [digitChar_toNat n hlt, digitChar_toNat 0 (by omega)] at h1
        omega
    · have hlt : n / 10 < fuel := by omega
      obtain ⟨ds, hds, hne, hdig, hval, _, hhead⟩ :=
        ih (n / 10) (digitChar (n % 10) :: acc) hlt
      have hm : n % 10 < 10 := Nat.mod_lt _ (by omega)
      refine ⟨ds ++ [digitChar (n % 10)], ?_, by simp, ?_, ?_, ?_, ?_⟩
      · simp [decimalDigits, hq, hds]
      · intro c hc
        rw [List.mem_append, List.mem_singleton] at hc
        rcases hc with hc | hc
        · exact hdig c hc
        · rw [hc]
          exact isdigit_digitChar _ hm
      · intro a
        rw [digitsValue_append, hval a]
        simp only [digitsValue, List.foldl_cons, List.foldl_nil, digitVal_digitChar _ hm,
          List.length_append, List.length_singleton, pow_succ]
        have := Nat.div_add_mod n 10
        linarith
      · intro h0
        omega
      · intro _
        cases ds with
        | nil => exact absurd rfl hne
        | cons d ds => simpa using hhead hq

/-- The decimal rendering produced by `std::to_string`: an optional `-`, then a
non-empty run of digits that denotes the absolute value. -/
theorem to_string_spec (i : Int) :
    ∃ ds : CppString, to_string i = (if i < 0 then ['-'] else []) ++ ds ∧ ds ≠ [] ∧
      (∀ c ∈ ds, isdigit c = true) ∧ digitsValue 0 ds = i.natAbs ∧
      (ds = ['0'] ∨ ds.head? ≠ some '0') := by
  obtain ⟨ds, hds, hne, hdig, hval, hzero, hhead⟩ :=
    decimalDigits_spec (i.natAbs + 1) i.natAbs [] (Nat.lt_succ_self _)
  refine ⟨ds, ?_, hne, hdig, ?_, ?_⟩
  · unfold to_string
    rw [hds]
    by_cases hneg : i < 0 <;> simp [hneg]
  · rw [hval 0]
    simp
  · by_cases h0 : i.natAbs = 0
    · exact Or.inl (hzero h0)
    · exact Or.inr (hhead h0)

theorem takeWhile_eq_self_of_all {p : Char → Bool} :
    ∀ (ds : CppString), (∀ c ∈ ds, p c = true) → ds.takeWhile p = ds
  | [], _ => rfl
  | d :: ds, h => by
    have hd : p d = true := h d (List.mem_cons_self _ _)
    rw [List.takeWhile_cons, hd]
    simp only [if_true]
    rw [takeWhile_eq_self_of_all ds (fun c hc => h c (List.mem_cons_of_mem _ hc))]

/-- A run of characters that satisfy `p`, followed by a text that does not
start with such a character, is what `takeWhile p` keeps. -/
theorem takeWhile_append_stop {p : Char → Bool} :
    ∀ (ds rest : CppString), (∀ c ∈ ds, p c = true) → (∀ c ∈ rest.head?, p c = false) →
      (ds ++ rest).takeWhile p = ds
  | [], [], _, _ => rfl
  | [], c :: rest, _, hrest => by
    rw [List.nil_append, List.takeWhile_cons, hrest c (by simp)]
    simp
  | d :: ds, rest, h, hrest => by
    have hd : p d = true := h d (List.mem_cons_self _ _)
    rw [List.cons_append, List.takeWhile_cons, hd]
    simp only [if_true]
    rw [takeWhile_append_stop ds rest (fun c hc => h c (List.mem_cons_of_mem _ hc)) hrest]

theorem dropWhile_append_of_all {p : Char → Bool} :
    ∀ (ws t : CppString), (∀ c ∈ ws, p c = true) → (ws ++ t).dropWhile p = t.dropWhile p
  | [], _, _ => rfl
  | w :: ws, t, h => by
    have hw : p w = true := h w (List.mem_cons_self _ _)
    rw [List.cons_append, List.dropWhile_cons, hw]
    simp only [if_true]
    exact dropWhile_append_of_all ws t (fun c hc => h c (List.mem_cons_of_mem _ hc))

/-- A digit character is neither white space nor a sign. -/
theorem isdigit_not_space_sign (c : Char) (h : isdigit c = true) :
    isspace c = false ∧ c ≠ '-' ∧ c ≠ '+' := by
  simp only [isdigit, Bool.and_eq_true, decide_eq_true_eq] at h
  refine ⟨?_, ?_, ?_⟩
  · simp only [isspace, Bool.or_eq_false_iff, Bool.and_eq_false_iff, decide_eq_false_iff_not,
      beq_eq_false_iff_ne, ne_eq]
    omega
  · intro hc
    rw [hc] at h
    exact absurd h.1 (by decide)
  · intro hc
    rw [hc] at h
    exact absurd h.1 (by decide)

/-- The call `std::stoi` reads back what `std::to_string` wrote, for every
`int`. -/
theorem stoi_to_string (i : Int) (hlo : INT_MIN ≤ i) (hhi : i ≤ INT_MAX) :
    stoi (to_string i) = .ok i := by
  obtain ⟨ds, hstr, hne, hdig, hval, _⟩ := to_string_spec i
  obtain ⟨d, ds1, rfl⟩ := List.exists_cons_of_ne_nil hne
  obtain ⟨hsp, hminus, hplus⟩ := isdigit_not_space_sign d (hdig d (List.mem_cons_self _ _))
  have htake : (d :: ds1).takeWhile isdigit = d :: ds1 := takeWhile_eq_self_of_all _ hdig
  rw [hstr]
  by_cases hneg : i < 0
  · have hr : -((i.natAbs : Nat) : Int) = i := by omega
    have hsign : stripSign ('-' :: d :: ds1) = (true, d :: ds1) := rfl
    have hdw : List.dropWhile isspace ('-' :: d :: ds1) = '-' :: d :: ds1 := by
      rw [List.dropWhile_cons]
      simp [isspace]
    simp only [hneg, if_true, List.singleton_append]
    unfold stoi
    simp only [hdw, hsign, htake, List.isEmpty_cons, hval, hr, hlo, hhi, and_self, if_true,
      Bool.false_eq_true, if_false]
  · have hr : ((i.natAbs : Nat) : Int) = i := by omega
    have hsign : stripSign (d :: ds1) = (false, d :: ds1) := by
      unfold stripSign
      split
      · rename_i heq
        exact absurd (List.cons.inj heq).1 hminus
      · rename_i heq
        exact absurd (List.cons.inj heq).1 hplus
      · rfl
    have hdw : List.dropWhile isspace (d :: ds1) = d :: ds1 := by
      rw [List.dropWhile_cons, hsp]
      simp
    simp only [hneg, if_false, List.nil_append]
    unfold stoi
    simp only [hdw, hsign, htake, List.isEmpty_cons, hval, hr, hlo, hhi, and_self, if_true,
      Bool.false_eq_true, if_false]

theorem head_dropWhile_not {p : Char → Bool} :
    ∀ (l : CppString), ∀ c ∈ (l.dropWhile p).head?, p c = false
  | [], c, hc => by simp at hc
  | a :: l, c, hc => by
    by_cases ha : p a = true
    · rw [List.dropWhile_cons, if_pos ha] at hc
      exact head_dropWhile_not l c hc
    · rw [List.dropWhile_cons, if_neg ha] at hc
      simp only [List.head?_cons, Option.mem_def, Option.some.injEq] at hc
      rw [← hc]
      simpa using ha

/-- What `std::stoi` does in terms of the text it reads: with `x` the text
after the white space, `sign` and `y` the sign and the text after it, and `ds`
the digits at the start of `y`. -/
theorem stoi_eq (s x y ds : CppString) (sign : Bool)
    (hdw : s.dropWhile isspace = x) (hsign : stripSign x = (sign, y))
    (htw : y.takeWhile isdigit = ds) :
    stoi s =
      if ds.isEmpty then .error .invalid_argument
      else if INT_MIN ≤ (if sign then -(digitsValue 0 ds : Int) else (digitsValue 0 ds : Int)) ∧
          (if sign then -(digitsValue 0 ds : Int) else (digitsValue 0 ds : Int)) ≤ INT_MAX
        then .ok (if sign then -(digitsValue 0 ds : Int) else (digitsValue 0 ds : Int))
        else .error .out_of_range := by
  unfold stoi
  simp only [hdw, hsign, htw]

/-- The result of `std::stoi` on a text given by its parts. -/
theorem stoi_parts (ws sg ds rest : CppString) (hparts : IntTextParts ws sg ds rest) :
    stoi (ws ++ (sg ++ (ds ++ rest))) =
      if ds = [] then .error .invalid_argument
      else if INT_MIN ≤ signedValue sg ds ∧ signedValue sg ds ≤ INT_MAX
        then .ok (signedValue sg ds) else .error .out_of_range := by
  obtain ⟨hws, hsg, hds, hrest⟩ := hparts
  have htw : (ds ++ rest).takeWhile isdigit = ds :=
    takeWhile_append_stop ds rest hds (fun c hc => (hrest c hc).1)
  have hempty : ds.isEmpty = true ↔ ds = [] := List.isEmpty_iff
  -- the first character of `ds ++ rest` when there is no sign
  have hfirst : sg = [] → ∀ c ∈ (ds ++ rest).head?,
      isspace c = false ∧ c ≠ '-' ∧ c ≠ '+' := by
    intro hsg0 c hc
    cases ds with
    | nil => exact (hrest c hc).2 hsg0 rfl
    | cons d ds1 =>
      simp only [List.cons_append, List.head?_cons, Option.mem_def, Option.some.injEq] at hc
      rw [← hc]
      exact isdigit_not_space_sign d (hds d (List.mem_cons_self _ _))
  rcases hsg with rfl | rfl | rfl
  · have hdw : (ws ++ ([] ++ (ds ++ rest))).dropWhile isspace = ds ++ rest := by
      rw [dropWhile_append_of_all ws _ hws, List.nil_append]
      cases hl : ds ++ rest with
      | nil => rfl
      | cons c t =>
        rw [List.dropWhile_cons, (hfirst rfl c (by rw [hl]; simp)).1]
        simp
    have hsign : stripSign (ds ++ rest) = (false, ds ++ rest) := by
      cases hl : ds ++ rest with
      | nil => rfl
      | cons c t =>
        have hc := hfirst rfl c (by rw [hl]; simp)
        unfold stripSign
        split
        · rename_i heq
          exact absurd (List.cons.inj heq).1 hc.2.1
        · rename_i heq
          exact absurd (List.cons.inj heq).1 hc.2.2
        · rfl
    rw [stoi_eq _ _ _ ds false hdw hsign htw]
    simp [signedValue, hempty]
  · have hdw : (ws ++ (['-'] ++ (ds ++ rest))).dropWhile isspace = '-' :: (ds ++ rest) := by
      rw [dropWhile_append_of_all ws _ hws, List.singleton_append, List.dropWhile_cons]
      simp [isspace]
    rw [stoi_eq _ _ _ ds true hdw rfl htw]
    simp [signedValue, hempty]
  · have hdw : (ws ++ (['+'] ++ (ds ++ rest))).dropWhile isspace = '+' :: (ds ++ rest) := by
      rw [dropWhile_append_of_all ws _ hws, List.singleton_append, List.dropWhile_cons]
      simp [isspace]
    rw [stoi_eq _ _ _ ds false hdw rfl htw]
    simp [signedValue, hempty]

/-- Every text has the parts that `std::stoi` reads. -/
theorem exists_intTextParts (r : CppString) :
    ∃ ws sg ds rest : CppString, r = ws ++ (sg ++ (ds ++ rest)) ∧ IntTextParts ws sg ds rest := by
  have hsplit : r = r.takeWhile isspace ++ r.dropWhile isspace :=
    (List.takeWhile_append_dropWhile isspace r).symm
  have hws : ∀ c ∈ r.takeWhile isspace, isspace c = true :=
    fun c hc => List.mem_takeWhile_imp hc
  have hdigits : ∀ t : CppString, t = t.takeWhile isdigit ++ t.dropWhile isdigit :=
    fun t => (List.takeWhile_append_dropWhile isdigit t).symm
  have hds : ∀ t : CppString, ∀ c ∈ t.takeWhile isdigit, isdigit c = true :=
    fun t c hc => List.mem_takeWhile_imp hc
  cases hr1 : r.dropWhile isspace with
  | nil =>
    refine ⟨r.takeWhile isspace, [], [], [], ?_, hws, Or.inl rfl, by simp, by simp⟩
    rw [hr1] at hsplit
    simpa using hsplit
  | cons c t =>
    have hcsp : isspace c = false := head_dropWhile_not r c (by rw [hr1]; simp)
    by_cases hminus : c = '-'
    · refine ⟨r.takeWhile isspace, ['-'], t.takeWhile isdigit, t.dropWhile isdigit, ?_, hws,
        Or.inr (Or.inl rfl), hds t, ?_⟩
      · rw [← hdigits t, List.singleton_append, ← hminus, ← hr1]
        exact hsplit
      · intro x hx
        exact ⟨head_dropWhile_not t x hx, fun h => absurd h (by simp)⟩
    by_cases hplus : c = '+'
    · refine ⟨r.takeWhile isspace, ['+'], t.takeWhile isdigit, t.dropWhile isdigit, ?_, hws,
        Or.inr (Or.inr rfl), hds t, ?_⟩
      · rw [← hdigits t, List.singleton_append, ← hplus, ← hr1]
        exact hsplit
      · intro x hx
        exact ⟨head_dropWhile_not t x hx, fun h => absurd h (by simp)⟩
    · refine ⟨r.takeWhile isspace, [], (c :: t).takeWhile isdigit, (c :: t).dropWhile isdigit,
        ?_, hws, Or.inl rfl, hds (c :: t), ?_⟩
      · rw [← hdigits (c :: t), List.nil_append, ← hr1]
        exact hsplit
      · intro x hx
        refine ⟨head_dropWhile_not (c :: t) x hx, fun _ hnil => ?_⟩
        have hcd : isdigit c = false := by
          by_contra hcd
          rw [List.takeWhile_cons, if_pos (by simpa using hcd)] at hnil
          exact absurd hnil (by simp)
        rw [List.dropWhile_cons, hcd] at hx
        simp only [Bool.false_eq_true, if_false, List.head?_cons, Option.mem_def,
          Option.some.injEq] at hx
        rw [← hx]
        exact ⟨hcsp, hminus, hplus⟩

theorem substr_append (p r : CppString) (n : Nat) (h : p.length = n) :
    substr (p ++ r) n = .ok r := by
  subst h
  simp [substr]

/-! Lemmas on `Variant::deserialize` -/

namespace Variant

/-- The four tests of `deserialize`, with each `rfind(p, 0) == 0` read as "`str`
begins with `p`". -/
theorem deserialize_eq (str : CppString) :
    deserialize str =
      if str = "nil".toList then .ok Variant.new
      else if "bool:".toList <+: str then
        (substr str 5).bind fun r => .ok (Variant.ofBool (r == "true".toList))
      else if "int:".toList <+: str then
        (substr str 4).bind fun r => (stoi r).bind fun i => .ok (Variant.ofInt i)
      else if "string:".toList <+: str then
        (substr str 7).bind fun r => .ok (Variant.ofString r)
      else .ok Variant.new := by
  simp only [deserialize, rfind_zero_iff]

theorem deserialize_bool (r : CppString) :
    deserialize ("bool:".toList ++ r) = .ok (Variant.ofBool (r == "true".toList)) := by
  rw [deserialize_eq, substr_append "bool:".toList r 5 rfl]
  simp [Except.bind]

theorem deserialize_int (r : CppString) :
    deserialize ("int:".toList ++ r) = (stoi r).bind fun i => .ok (Variant.ofInt i) := by
  rw [deserialize_eq, substr_append "int:".toList r 4 rfl]
  simp [Except.bind]

theorem deserialize_string (r : CppString) :
    deserialize ("string:".toList ++ r) = .ok (Variant.ofString r) := by
  rw [deserialize_eq, substr_append "string:".toList r 7 rfl]
  simp [Except.bind]

theorem deserialize_other (s : CppString) (hnil : s ≠ "nil".toList)
    (hb : ¬ "bool:".toList <+: s) (hi : ¬ "int:".toList <+: s)
    (hs : ¬ "string:".toList <+: s) : deserialize s = .ok Variant.new := by
  rw [deserialize_eq]
  simp only [hnil, hb, hi, hs, if_false]

end Variant

/-! The claims about `Variant` -/

namespace Variant

/-- C1. Round trip: for every `Variant` built by a constructor (`Variant()`,
`Variant(bool)`, `Variant(int)` with any 32-bit value, `Variant(string)`) whose
text, if it is a Text, does not begin with `bool:`, `int:` or `string:` and is
not `nil`, `deserialize(v.serialize())` returns and yields `v` itself: the same
kind and the same payload. -/
theorem serialize_deserialize_roundtrip (v : Variant) (hv : v.Constructed)
    (htext : v.get_type = .TYPE_STRING →
      ¬ "bool:".toList <+: v.as_string ∧ ¬ "int:".toList <+: v.as_string ∧
      ¬ "string:".toList <+: v.as_string ∧ v.as_string ≠ "nil".toList) :
    deserialize v.serialize = .ok v := by
  cases hv with
  | nil => decide
  | bool b => cases b <;> decide
  | int i hlo hhi =>
    have hser : (Variant.ofInt i).serialize = "int:".toList ++ to_string i := rfl
    rw [hser, deserialize_int, stoi_to_string i hlo hhi]
    rfl
  | string s =>
    have hser : (Variant.ofString s).serialize = "string:".toList ++ s := rfl
    rw [hser, deserialize_string]

/-- Instances of C1: the integer `INT_MIN` and the text `hi:there`. -/
theorem serialize_deserialize_roundtrip_witness :
    (Variant.ofInt INT_MIN).Constructed ∧
    deserialize (Variant.ofInt INT_MIN).serialize = .ok (Variant.ofInt INT_MIN) ∧
    ¬ "bool:".toList <+: "hi:there".toList ∧
    deserialize (Variant.ofString "hi:there".toList).serialize =
      .ok (Variant.ofString "hi:there".toList) :=
  ⟨.int INT_MIN (by decide) (by decide),
   serialize_deserialize_roundtrip _ (.int INT_MIN (by decide) (by decide)) (by decide),
   by decide,
   serialize_deserialize_roundtrip _ (.string "hi:there".toList) (by decide)⟩

/-- C2, refuted: no Text `Variant` whose content begins with `bool:`, `int:` or
`string:`, or is `nil`, comes back different from `deserialize(v.serialize())`. -/
theorem text_roundtrip_not_ambiguous :
    ¬ ∃ s : CppString,
        ("bool:".toList <+: s ∨ "int:".toList <+: s ∨ "string:".toList <+: s ∨
          s = "nil".toList) ∧
        deserialize (Variant.ofString s).serialize ≠ .ok (Variant.ofString s) := by
  rintro ⟨s, _, hne⟩
  apply hne
  have hser : (Variant.ofString s).serialize = "string:".toList ++ s := rfl
  rw [hser, deserialize_string]

/-- C2, amended: every Text `Variant` round-trips, whatever its content:
`serialize` always writes `string:` in front, and `deserialize` returns what
follows that tag verbatim. -/
theorem text_roundtrip (s : CppString) :
    deserialize (Variant.ofString s).serialize = .ok (Variant.ofString s) ∧
    (Variant.ofString s).get_type = .TYPE_STRING ∧ (Variant.ofString s).as_string = s := by
  have hser : (Variant.ofString s).serialize = "string:".toList ++ s := rfl
  rw [hser, deserialize_string]
  exact ⟨rfl, rfl, rfl⟩

/-- C3. The encoding table of `serialize`: `nil` for `Variant()`; `bool:true`
or `bool:false` for a Boolean; for an Integer `int:` followed by `-` when the
number is negative and by a non-empty run of decimal digits that denotes its
absolute value and has no leading zero (so no `+` either); for a Text `string:`
followed by the text unchanged. -/
theorem serialize_table :
    Variant.new.serialize = "nil".toList ∧
    (∀ b : Bool, (Variant.ofBool b).serialize =
      if b then "bool:true".toList else "bool:false".toList) ∧
    (∀ i : Int, ∃ ds : CppString,
      (Variant.ofInt i).serialize = "int:".toList ++ ((if i < 0 then ['-'] else []) ++ ds) ∧
      ds ≠ [] ∧ (∀ c ∈ ds, isdigit c = true) ∧ digitsValue 0 ds = i.natAbs ∧
      (ds = ['0'] ∨ ds.head? ≠ some '0')) ∧
    (∀ s : CppString, (Variant.ofString s).serialize = "string:".toList ++ s) := by
  refine ⟨rfl, ?_, ?_, fun s => rfl⟩
  · intro b
    cases b <;> rfl
  · intro i
    obtain ⟨ds, hds, hrest⟩ := to_string_spec i
    refine ⟨ds, ?_, hrest⟩
    rw [← hds]
    rfl

/-- C4, refuted: `deserialize("int:abc")` throws `std::invalid_argument`. -/
theorem deserialize_throws_on_int_abc :
    deserialize "int:abc".toList = .error .invalid_argument := by
  decide

/-- C4, amended: `deserialize(s)` returns a `Variant` for every `s`, except
that when `s` is `int:` followed by a text `r` that `std::stoi` rejects, the
exception of `std::stoi` leaves `deserialize`: `deserialize(s)` throws `e`
exactly when `s` is `int:` followed by an `r` on which `std::stoi` throws `e`,
it returns a `Variant` exactly when `s` is not of this form, and for `int:`
followed by an `r` that `std::stoi` converts to `i` it returns `Variant(i)`. -/
theorem deserialize_returns_or_stoi_throws (s : CppString) :
    (∀ e : CppException, deserialize s = .error e ↔
      ∃ r, s = "int:".toList ++ r ∧ stoi r = .error e) ∧
    ((∃ v, deserialize s = .ok v) ↔
      ¬ ∃ r e, s = "int:".toList ++ r ∧ stoi r = .error e) ∧
    (∀ (r : CppString) (i : Int), s = "int:".toList ++ r → stoi r = .ok i →
      deserialize s = .ok (Variant.ofInt i)) := by
  by_cases hi : "int:".toList <+: s
  · obtain ⟨r, rfl⟩ := hi
    have hd := deserialize_int r
    cases hst : stoi r with
    | ok i =>
      rw [hst] at hd
      have hok : deserialize ("int:".toList ++ r) = .ok (Variant.ofInt i) := hd
      refine ⟨fun e => ⟨fun h => ?_, fun h => ?_⟩, ⟨fun _ => ?_, fun _ => ⟨_, hok⟩⟩, ?_⟩
      · rw [hok] at h
        cases h
      · obtain ⟨r1, hr1, he⟩ := h
        rw [List.append_cancel_left hr1, he] at hst
        cases hst
      · rintro ⟨r1, e, hr1, he⟩
        rw [List.append_cancel_left hr1, he] at hst
        cases hst
      · intro r1 i1 hr1 hi1
        rw [List.append_cancel_left hr1, hi1] at hst
        cases hst
        exact hok
    | error e0 =>
      rw [hst] at hd
      have herr : deserialize ("int:".toList ++ r) = .error e0 := hd
      refine ⟨fun e => ⟨fun h => ?_, fun h => ?_⟩, ⟨fun h => ?_, fun h => ?_⟩, ?_⟩
      · rw [herr] at h
        cases h
        exact ⟨r, rfl, hst⟩
      · obtain ⟨r1, hr1, he⟩ := h
        rw [List.append_cancel_left hr1, he] at hst
        cases hst
        exact herr
      · obtain ⟨v, hv⟩ := h
        rw [herr] at hv
        cases hv
      · exact absurd ⟨r, e0, rfl, hst⟩ h
      · intro r1 i1 hr1 hi1
        rw [List.append_cancel_left hr1, hi1] at hst
        cases hst
  · have hnot : ∀ r, s ≠ "int:".toList ++ r := fun r h => hi ⟨r, h.symm⟩
    have hret : ∃ v, deserialize s = .ok v := by
      by_cases hnil : s = "nil".toList
      · exact ⟨Variant.new, by rw [hnil]; decide⟩
      by_cases hb : "bool:".toList <+: s
      · obtain ⟨r, rfl⟩ := hb
        exact ⟨_, deserialize_bool r⟩
      by_cases hs : "string:".toList <+: s
      · obtain ⟨r, rfl⟩ := hs
        exact ⟨_, deserialize_string r⟩
      exact ⟨_, deserialize_other s hnil hb hi hs⟩
    obtain ⟨v, hv⟩ := hret
    refine ⟨fun e => ⟨fun h => ?_, fun h => ?_⟩, ⟨fun _ => ?_, fun _ => ⟨v, hv⟩⟩, ?_⟩
    · rw [hv] at h
      cases h
    · obtain ⟨r, hr, _⟩ := h
      exact absurd hr (hnot r)
    · rintro ⟨r, e, hr, _⟩
      exact hnot r hr
    · intro r i hr _
      exact absurd hr (hnot r)

/-- C5, refuted: `12abc` is not an integer literal, and `deserialize("int:12abc")`
returns the Integer 12. -/
theorem deserialize_int_accepts_trailing_text :
    isIntLiteral "12abc".toList = false ∧
    deserialize "int:12abc".toList = .ok (Variant.ofInt 12) := by
  decide

/-- C5, amended: every text `r` splits into white space, an optional sign `-` or
`+`, a run of decimal digits and a rest that does not start with a digit, and
`deserialize("int:" + r)` is decided by these parts: it throws
`std::invalid_argument` when the run of digits is empty, it throws
`std::out_of_range` when the digits and the sign denote a number outside
`INT_MIN .. INT_MAX`, and otherwise it returns that number as an Integer,
whatever the rest is. So a text that is not an integer literal fails unless a
number that fits an `int` stands at its start, after optional white space and
sign. -/
theorem deserialize_int_by_parts (r : CppString) :
    (∃ ws sg ds rest : CppString, r = ws ++ (sg ++ (ds ++ rest)) ∧ IntTextParts ws sg ds rest) ∧
    (∀ ws sg ds rest : CppString, r = ws ++ (sg ++ (ds ++ rest)) → IntTextParts ws sg ds rest →
      deserialize ("int:".toList ++ r) =
        if ds = [] then .error .invalid_argument
        else if INT_MIN ≤ signedValue sg ds ∧ signedValue sg ds ≤ INT_MAX
          then .ok (Variant.ofInt (signedValue sg ds)) else .error .out_of_range) ∧
    (isIntLiteral r = false →
      (∃ e, deserialize ("int:".toList ++ r) = .error e) ∨
      (∃ ws sg ds rest : CppString, r = ws ++ (sg ++ (ds ++ rest)) ∧ IntTextParts ws sg ds rest ∧
        ds ≠ [] ∧ INT_MIN ≤ signedValue sg ds ∧ signedValue sg ds ≤ INT_MAX ∧
        deserialize ("int:".toList ++ r) = .ok (Variant.ofInt (signedValue sg ds)))) := by
  have hres : ∀ ws sg ds rest : CppString, r = ws ++ (sg ++ (ds ++ rest)) →
      IntTextParts ws sg ds rest →
      deserialize ("int:".toList ++ r) =
        if ds = [] then .error .invalid_argument
        else if INT_MIN ≤ signedValue sg ds ∧ signedValue sg ds ≤ INT_MAX
          then .ok (Variant.ofInt (signedValue sg ds)) else .error .out_of_range := by
    intro ws sg ds rest hr hparts
    rw [deserialize_int, hr, stoi_parts ws sg ds rest hparts]
    by_cases hds : ds = []
    · simp only [hds, if_true]
      rfl
    · by_cases hrange : INT_MIN ≤ signedValue sg ds ∧ signedValue sg ds ≤ INT_MAX
      · simp only [hds, hrange, and_self, if_true, if_false]
        rfl
      · simp only [hds, hrange, if_false]
        rfl
  refine ⟨exists_intTextParts r, hres, fun _ => ?_⟩
  obtain ⟨ws, sg, ds, rest, hr, hparts⟩ := exists_intTextParts r
  have h := hres ws sg ds rest hr hparts
  by_cases hds : ds = []
  · rw [if_pos hds] at h
    exact Or.inl ⟨_, h⟩
  · by_cases hrange : INT_MIN ≤ signedValue sg ds ∧ signedValue sg ds ≤ INT_MAX
    · rw [if_neg hds, if_pos hrange] at h
      exact Or.inr ⟨ws, sg, ds, rest, hr, hparts, hds, hrange.1, hrange.2, h⟩
    · rw [if_neg hds, if_neg hrange] at h
      exact Or.inl ⟨_, h⟩

/-- Instances of the amended C5: texts that are not integer literals, on which
`deserialize` throws `std::invalid_argument` (`abc`, ` -x`), throws
`std::out_of_range` (`+2147483648`, ` 2147483648`, `2147483648abc`) or returns
an Integer (`12abc`, ` +7`). -/
theorem deserialize_int_by_parts_witness :
    deserialize "int:abc".toList = .error .invalid_argument ∧
    deserialize "int: -x".toList = .error .invalid_argument ∧
    deserialize "int:+2147483648".toList = .error .out_of_range ∧
    deserialize "int: 2147483648".toList = .error .out_of_range ∧
    deserialize "int:2147483648abc".toList = .error .out_of_range ∧
    deserialize "int:12abc".toList = .ok (Variant.ofInt 12) ∧
    deserialize "int: +7".toList = .ok (Variant.ofInt 7) :=
  ⟨((deserialize_int_by_parts "abc".toList).2.1 [] [] [] "abc".toList rfl
      (by unfold IntTextParts; decide)).trans (by decide),
   ((deserialize_int_by_parts " -x".toList).2.1 [' '] ['-'] [] ['x'] rfl
      (by unfold IntTextParts; decide)).trans (by decide),
   ((deserialize_int_by_parts "+2147483648".toList).2.1 [] ['+'] "2147483648".toList [] rfl
      (by unfold IntTextParts; decide)).trans (by decide),
   ((deserialize_int_by_parts " 2147483648".toList).2.1 [' '] [] "2147483648".toList [] rfl
      (by unfold IntTextParts; decide)).trans (by decide),
   ((deserialize_int_by_parts "2147483648abc".toList).2.1 [] [] "2147483648".toList
      "abc".toList rfl (by unfold IntTextParts; decide)).trans (by decide),
   ((deserialize_int_by_parts "12abc".toList).2.1 [] [] "12".toList "abc".toList rfl
      (by unfold IntTextParts; decide)).trans (by decide),
   ((deserialize_int_by_parts " +7".toList).2.1 [' '] ['+'] ['7'] [] rfl
      (by unfold IntTextParts; decide)).trans (by decide)⟩

/-- C6. Boolean decoding: for every text `r`, `deserialize("bool:" + r)` returns
a Boolean `Variant`, namely `Variant(r == "true")`: its payload is `true`
exactly when `r` is the text `true`, and `false` for every other `r`, the empty
one included. -/
theorem deserialize_bool_payload (r : CppString) :
    ∃ v : Variant, deserialize ("bool:".toList ++ r) = .ok v ∧
      v = Variant.ofBool (decide (r = "true".toList)) ∧
      v.get_type = .TYPE_BOOL ∧ (v.as_bool = true ↔ r = "true".toList) ∧
      (v.as_bool = false ↔ r ≠ "true".toList) := by
  refine ⟨Variant.ofBool (r == "true".toList), deserialize_bool r, ?_, rfl, ?_, ?_⟩
  · congr 1
    exact Bool.eq_iff_iff.mpr (by rw [beq_iff_eq, decide_eq_true_iff])
  · show (r == "true".toList) = true ↔ _
    simp
  · show (r == "true".toList) = false ↔ _
    simp

/-- C7. Text decoding: for every text `r`, `deserialize("string:" + r)` returns
a Text `Variant` whose `as_string()` is `r`. -/
theorem deserialize_text_payload (r : CppString) :
    ∃ v : Variant, deserialize ("string:".toList ++ r) = .ok v ∧
      v.get_type = .TYPE_STRING ∧ v.as_string = r :=
  ⟨Variant.ofString r, deserialize_string r, rfl, rfl⟩

/-- C8. Absent decoding and fallback: `deserialize(s)` returns `Variant()`, of
type `TYPE_NIL`, when `s` is `nil` and when `s` is any other text that does not
begin with `bool:`, `int:` or `string:`. -/
theorem deserialize_absent (s : CppString)
    (hs : s = "nil".toList ∨
      (s ≠ "nil".toList ∧ ¬ "bool:".toList <+: s ∧ ¬ "int:".toList <+: s ∧
        ¬ "string:".toList <+: s)) :
    deserialize s = .ok Variant.new ∧ Variant.new.get_type = .TYPE_NIL := by
  refine ⟨?_, rfl⟩
  rcases hs with rfl | ⟨hnil, hb, hi, hstr⟩
  · decide
  · exact deserialize_other s hnil hb hi hstr

/-- Instances of C8: `nil`, `garbage`, the empty text, `nil ` and `Bool:true`. -/
theorem deserialize_absent_witness :
    deserialize "nil".toList = .ok Variant.new ∧
    deserialize "garbage".toList = .ok Variant.new ∧
    deserialize [] = .ok Variant.new ∧
    deserialize "nil ".toList = .ok Variant.new ∧
    deserialize "Bool:true".toList = .ok Variant.new :=
  ⟨(deserialize_absent "nil".toList (by decide)).1,
   (deserialize_absent "garbage".toList (by decide)).1,
   (deserialize_absent [] (by decide)).1,
   (deserialize_absent "nil ".toList (by decide)).1,
   (deserialize_absent "Bool:true".toList (by decide)).1⟩

/-- C9. Safe coercion: on every `Variant`, `as_bool()` is `false` unless the
type is `TYPE_BOOL`, `as_int()` is `0` unless the type is `TYPE_INT`, and
`as_string()` is the empty text unless the type is `TYPE_STRING`; the three
accessors are total functions, so each returns a value on every `Variant`. -/
theorem accessors_default_on_mismatch (v : Variant) :
    (v.get_type ≠ .TYPE_BOOL → v.as_bool = false) ∧
    (v.get_type ≠ .TYPE_INT → v.as_int = 0) ∧
    (v.get_type ≠ .TYPE_STRING → v.as_string = []) ∧
    (∃ b, v.as_bool = b) ∧ (∃ i, v.as_int = i) ∧ (∃ s, v.as_string = s) := by
  refine ⟨?_, ?_, ?_, ⟨_, rfl⟩, ⟨_, rfl⟩, ⟨_, rfl⟩⟩
  · intro h
    have h1 : ¬ v.type = .TYPE_BOOL := h
    simp only [as_bool, h1, if_false]
  · intro h
    have h1 : ¬ v.type = .TYPE_INT := h
    simp only [as_int, h1, if_false]
  · intro h
    have h1 : ¬ v.type = .TYPE_STRING := h
    simp only [as_string, h1, if_false]

/-- C10. Construction fixes kind and payload: `Variant()` has type `TYPE_NIL`;
`Variant(b)` has type `TYPE_BOOL` and `as_bool() == b`; `Variant(i)` has type
`TYPE_INT` and `as_int() == i`; `Variant(s)` has type `TYPE_STRING` and
`as_string() == s`, both for a `std::string` and for a C string `s`, whose text
is what stands before its first NUL. -/
theorem constructors_fix_kind_and_payload :
    Variant.new.get_type = .TYPE_NIL ∧
    (∀ b : Bool, (Variant.ofBool b).get_type = .TYPE_BOOL ∧ (Variant.ofBool b).as_bool = b) ∧
    (∀ i : Int, (Variant.ofInt i).get_type = .TYPE_INT ∧ (Variant.ofInt i).as_int = i) ∧
    (∀ s : CppString, (Variant.ofString s).get_type = .TYPE_STRING ∧
      (Variant.ofString s).as_string = s) ∧
    (∀ s : CppString, (Variant.ofCString s).get_type = .TYPE_STRING ∧
      (Variant.ofCString s).as_string = s.takeWhile (fun c => c != Char.ofNat 0)) ∧
    (∀ s : CppString, Char.ofNat 0 ∉ s → (Variant.ofCString s).as_string = s) ∧
    (∀ s t : CppString, Char.ofNat 0 ∉ s →
      (Variant.ofCString (s ++ Char.ofNat 0 :: t)).as_string = s) := by
  have hall : ∀ s : CppString, Char.ofNat 0 ∉ s →
      ∀ c ∈ s, (fun c => c != Char.ofNat 0) c = true := by
    intro s hs c hc
    simp only [bne_iff_ne, ne_eq]
    intro h0
    exact hs (h0 ▸ hc)
  refine ⟨rfl, fun _ => ⟨rfl, rfl⟩, fun _ => ⟨rfl, rfl⟩, fun _ => ⟨rfl, rfl⟩,
    fun _ => ⟨rfl, rfl⟩, ?_, ?_⟩
  · intro s hs
    show s.takeWhile (fun c => c != Char.ofNat 0) = s
    exact takeWhile_eq_self_of_all s (hall s hs)
  · intro s t hs
    show (s ++ Char.ofNat 0 :: t).takeWhile (fun c => c != Char.ofNat 0) = s
    exact takeWhile_append_stop s (Char.ofNat 0 :: t) (hall s hs) (by intro c hc; simp at hc; subst hc; rfl)

end Variant

/-! Lemmas on `Object` -/

namespace Object

theorem wrapInt_of_range (x : Int) (hlo : INT_MIN ≤ x) (hhi : x ≤ INT_MAX) : wrapInt x = x := by
  simp only [INT_MIN, INT_MAX] at hlo hhi
  simp only [wrapInt, INT_MIN]
  omega

theorem connect_signals_same {W : Type} (o : Object W) (n : CppString) (h : SignalHandler W) :
    (o.connect n h).signals n = some ((o.signals n).getD [] ++ [h]) := by
  simp [connect]

theorem connect_signals_other {W : Type} (o : Object W) (n m : CppString)
    (h : SignalHandler W) (hmn : m ≠ n) : (o.connect n h).signals m = o.signals m := by
  simp [connect, hmn]

theorem emit_signal_fst {W : Type} (o : Object W) (n : CppString) (v : Variant) (w : W) :
    (o.emit_signal n v w).1 = o := by
  unfold emit_signal
  cases o.signals n <;> rfl

theorem emit_signal_snd {W : Type} (o : Object W) (n : CppString) (v : Variant) (w : W) :
    (o.emit_signal n v w).2 = call_handlers ((o.signals n).getD []) v w := by
  unfold emit_signal
  cases o.signals n <;> rfl

theorem construct_sequence_ids (W : Type) (n : Nat) :
    ∀ start : Int, INT_MIN ≤ start → start + n ≤ INT_MAX + 1 →
      (construct_sequence W n start).map get_id =
        (List.range n).map fun (k : Nat) => start + (k : Int) := by
  induction n with
  | zero => intro start _ _; rfl
  | succ n ih =>
    intro start hlo hhi
    have hstep : construct_sequence W (n + 1) start =
        (Object.new W start).1 :: construct_sequence W n (wrapInt (start + 1)) := rfl
    rw [hstep, List.map_cons, List.range_succ_eq_map, List.map_cons, List.map_map]
    have hhead : (Object.new W start).1.get_id = start + ((0 : Nat) : Int) := by
      simp [Object.new, get_id]
    rw [hhead]
    congr 1
    cases n with
    | zero => rfl
    | succ m =>
      have hmax : start + 1 ≤ INT_MAX := by
        simp only [INT_MAX] at hhi ⊢
        push_cast at hhi
        omega
      have hmin : INT_MIN ≤ start + 1 := by
        simp only [INT_MIN] at hlo ⊢
        omega
      rw [wrapInt_of_range (start + 1) hmin hmax, ih (start + 1) hmin (by push_cast at hhi ⊢; omega)]
      apply List.map_congr_left
      intro k _
      simp only [Function.comp, Nat.cast_succ]
      omega

end Object

namespace ProgramState

theorem step_id {W : Type} (s : ProgramState W) (op : Operation W) :
    (s.step op).obj.id = s.obj.id := by
  cases op with
  | connect n h => rfl
  | emit_signal n v =>
    show (s.obj.emit_signal n v s.world).1.id = s.obj.id
    rw [Object.emit_signal_fst]
  | get_id => rfl
  | construct => rfl

theorem run_id {W : Type} (ops : List (Operation W)) :
    ∀ s : ProgramState W, (s.run ops).obj.id = s.obj.id := by
  induction ops with
  | nil => intro s; rfl
  | cons op ops ih =>
    intro s
    have hstep : s.run (op :: ops) = (s.step op).run ops := rfl
    rw [hstep, ih, step_id]

/-- One operation keeps, under every name, the handlers stored before as the
beginning of the handlers stored afterwards, and keeps every entry of the
map. -/
theorem step_signals {W : Type} (s : ProgramState W) (op : Operation W) (m : CppString) :
    (s.obj.signals m).getD [] <+: ((s.step op).obj.signals m).getD [] ∧
    ((s.obj.signals m).isSome = true → ((s.step op).obj.signals m).isSome = true) := by
  cases op with
  | connect n h =>
    show (s.obj.signals m).getD [] <+: ((s.obj.connect n h).signals m).getD [] ∧
      ((s.obj.signals m).isSome = true → ((s.obj.connect n h).signals m).isSome = true)
    by_cases hmn : m = n
    · subst hmn
      rw [Object.connect_signals_same]
      exact ⟨List.prefix_append _ _, fun _ => rfl⟩
    · rw [Object.connect_signals_other s.obj n m h hmn]
      exact ⟨List.prefix_refl _, fun h => h⟩
  | emit_signal n v =>
    show (s.obj.signals m).getD [] <+: ((s.obj.emit_signal n v s.world).1.signals m).getD [] ∧
      ((s.obj.signals m).isSome = true →
        ((s.obj.emit_signal n v s.world).1.signals m).isSome = true)
    rw [Object.emit_signal_fst]
    exact ⟨List.prefix_refl _, fun h => h⟩
  | get_id => exact ⟨List.prefix_refl _, fun h => h⟩
  | construct => exact ⟨List.prefix_refl _, fun h => h⟩

end ProgramState

/-! The claims about `Object` -/

namespace Object

/-- C11. Identity assignment: starting from `Object::next_id == 1`, the objects
built by `N` constructor calls in sequence, for every `N` below `2 ^ 31`, have
the identifiers `1, 2, ..., N` in the order of construction; so the identifiers
start at 1, increase strictly and are pairwise distinct. -/
theorem construct_sequence_ids_from_one (W : Type) (N : Nat) (hN : N < 2 ^ 31) :
    (construct_sequence W N next_id_init).map get_id =
      (List.range N).map (fun (k : Nat) => (k : Int) + 1) ∧
    (construct_sequence W N next_id_init).length = N ∧
    ((construct_sequence W N next_id_init).map get_id).Pairwise (fun a b => a < b) ∧
    ((construct_sequence W N next_id_init).map get_id).Nodup := by
  have hids : (construct_sequence W N next_id_init).map get_id =
      (List.range N).map (fun (k : Nat) => (k : Int) + 1) := by
    rw [construct_sequence_ids W N next_id_init (by decide)
      (by simp only [next_id_init, INT_MAX]; omega)]
    apply List.map_congr_left
    intro k _
    simp only [next_id_init]
    omega
  have hpair : ((construct_sequence W N next_id_init).map get_id).Pairwise
      (fun a b => a < b) := by
    rw [hids, List.pairwise_map]
    refine List.Pairwise.imp ?_ (List.pairwise_lt_range N)
    intro a b hab
    omega
  refine ⟨hids, ?_, hpair, ?_⟩
  · have hlen := congrArg List.length hids
    simpa using hlen
  · exact hpair.imp (fun hab => ne_of_lt hab)

/-- Instance of C11: three objects constructed in sequence get the identifiers
1, 2 and 3. -/
theorem construct_sequence_ids_from_one_witness :
    (3 : Nat) < 2 ^ 31 ∧ (construct_sequence Unit 3 next_id_init).map get_id = [1, 2, 3] :=
  ⟨by decide, (construct_sequence_ids_from_one Unit 3 (by decide)).1⟩

/-- C13. Unknown signal: when the map has no entry for `n`, `emit_signal(n, v)`
calls no handler (the state the handlers act on and the value are as before),
returns without an exception, and leaves the object as it was, with its `id`
and without an entry for `n`. -/
theorem emit_signal_unknown_noop {W : Type} (o : Object W) (n : CppString) (v : Variant)
    (w : W) (hn : o.signals n = none) :
    o.emit_signal n v w = (o, .returned w v) ∧ (o.emit_signal n v w).1.get_id = o.get_id ∧
    (o.emit_signal n v w).1.signals = o.signals ∧
    (o.emit_signal n v w).1.signals n = none := by
  have h : o.emit_signal n v w = (o, .returned w v) := by
    unfold emit_signal
    rw [hn]
  rw [h]
  exact ⟨rfl, rfl, rfl, hn⟩

/-- Instance of C13: on an object with one handler connected under `a`,
emitting `b` logs no call. -/
theorem emit_signal_unknown_noop_witness :
    ((Object.new (List (Nat × CppString)) 1).1.connect "a".toList (logHandler 1)).signals
      "b".toList = none ∧
    (((Object.new (List (Nat × CppString)) 1).1.connect "a".toList (logHandler 1)).emit_signal
      "b".toList (Variant.ofInt 5) []).2 = .returned [] (Variant.ofInt 5) :=
  ⟨rfl, congrArg Prod.snd (emit_signal_unknown_noop
    ((Object.new (List (Nat × CppString)) 1).1.connect "a".toList (logHandler 1))
    "b".toList (Variant.ofInt 5) [] rfl).1⟩

/-- C14. The method `connect` appends: after `connect(n, h)` the handlers stored
under `n` are those stored before (none when there was no entry) followed by
`h`; a second `connect(n, h)` stores `h` a second time; the handlers stored
under every other name, and the `id`, are as before. -/
theorem connect_appends {W : Type} (o : Object W) (n : CppString) (h : SignalHandler W) :
    (o.connect n h).signals n = some ((o.signals n).getD [] ++ [h]) ∧
    ((o.connect n h).connect n h).signals n = some ((o.signals n).getD [] ++ [h, h]) ∧
    (∀ m : CppString, m ≠ n → (o.connect n h).signals m = o.signals m) ∧
    (o.connect n h).get_id = o.get_id := by
  refine ⟨connect_signals_same o n h, ?_, fun m hm => connect_signals_other o n m h hm, rfl⟩
  rw [connect_signals_same, connect_signals_same]
  simp

/-- C20. Dispatch is isolated by signal name: for distinct names `m` and `n`, a
`connect(m, h)` made beforehand changes neither the handlers stored under `n`
nor what `emit_signal(n, v)` does to the state the handlers act on, whatever
`h` does when called; so `emit_signal(n, v)` does not call `h`. -/
theorem emit_signal_isolated_by_name {W : Type} (o : Object W) (m n : CppString)
    (h : SignalHandler W) (v : Variant) (w : W) (hmn : m ≠ n) :
    (o.connect m h).signals n = o.signals n ∧
    ((o.connect m h).emit_signal n v w).2 = (o.emit_signal n v w).2 := by
  have hsig : (o.connect m h).signals n = o.signals n :=
    connect_signals_other o m n h (fun hnm => hmn hnm.symm)
  refine ⟨hsig, ?_⟩
  rw [emit_signal_snd, emit_signal_snd, hsig]

/-- Instance of C20 with handlers that log their calls: with handler 1 under
`n`, connecting handler 2 under `m` leaves the log of `emit_signal("n", v)` the
one call of handler 1. -/
theorem emit_signal_isolated_by_name_witness :
    "m".toList ≠ "n".toList ∧
    ((((Object.new (List (Nat × CppString)) 1).1.connect "n".toList (logHandler 1)).connect
      "m".toList (logHandler 2)).emit_signal "n".toList Variant.new []).2 =
      .returned [(1, "nil".toList)] Variant.new :=
  ⟨by decide, ((emit_signal_isolated_by_name
    ((Object.new (List (Nat × CppString)) 1).1.connect "n".toList (logHandler 1))
    "m".toList "n".toList (logHandler 2) Variant.new [] (by decide)).2).trans (by decide)⟩

end Object

namespace ProgramState

/-- C15. Registry growth is monotonic: for every state and every operation
(`connect`, `emit_signal`, `get_id`, the construction of a further object) and
every sequence of operations, the handlers stored under a name before are the
beginning, in the same order, of the handlers stored under it afterwards, and
an entry of the map stays; `emit_signal` leaves the map as it was. -/
theorem registry_growth_monotonic {W : Type} (s : ProgramState W) (m : CppString) :
    (∀ op : Operation W,
      (s.obj.signals m).getD [] <+: ((s.step op).obj.signals m).getD [] ∧
      ((s.obj.signals m).isSome = true → ((s.step op).obj.signals m).isSome = true)) ∧
    (∀ ops : List (Operation W),
      (s.obj.signals m).getD [] <+: ((s.run ops).obj.signals m).getD []) ∧
    (∀ (n : CppString) (v : Variant), (s.step (.emit_signal n v)).obj.signals = s.obj.signals) := by
  refine ⟨fun op => step_signals s op m, ?_, ?_⟩
  · intro ops
    induction ops generalizing s with
    | nil => exact List.prefix_refl _
    | cons op ops ih =>
      have hstep : s.run (op :: ops) = (s.step op).run ops := rfl
      rw [hstep]
      exact (step_signals s op m).1.trans (ih (s.step op))
  · intro n v
    show (s.obj.emit_signal n v s.world).1.signals = s.obj.signals
    rw [Object.emit_signal_fst]

/-- C16. The method `get_id` is pure and the identifier is stable: `get_id()`
on a new object returns the value that `Object::next_id` had at its
construction; a call of `get_id` leaves the state (counter, object, other
objects, surroundings) as it was; and after every sequence of `connect`,
`emit_signal` and `get_id` calls and of constructions of further objects,
`get_id()` returns what it returned before. -/
theorem get_id_pure_and_stable {W : Type} (s : ProgramState W) (ops : List (Operation W)) :
    (∀ next_id : Int, (Object.new W next_id).1.get_id = next_id) ∧
    s.step .get_id = s ∧
    (s.run ops).obj.get_id = s.obj.get_id :=
  ⟨fun _ => rfl, rfl, run_id ops s⟩

end ProgramState

/-! Further claims about `Variant` -/

/-- The call `std::stoi` on an optional `-` followed by a non-empty run of
digits and nothing else: the value of the literal when it fits an `int`, and
`std::out_of_range` otherwise. -/
theorem stoi_literal (neg : Bool) (ds : CppString) (hne : ds ≠ [])
    (hdig : ∀ c ∈ ds, isdigit c = true) :
    stoi ((if neg then ['-'] else []) ++ ds) =
      if INT_MIN ≤ (if neg then -(digitsValue 0 ds : Int) else (digitsValue 0 ds : Int)) ∧
          (if neg then -(digitsValue 0 ds : Int) else (digitsValue 0 ds : Int)) ≤ INT_MAX
      then .ok (if neg then -(digitsValue 0 ds : Int) else (digitsValue 0 ds : Int))
      else .error .out_of_range := by
  obtain ⟨d, ds1, rfl⟩ := List.exists_cons_of_ne_nil hne
  obtain ⟨hsp, hminus, hplus⟩ := isdigit_not_space_sign d (hdig d (List.mem_cons_self _ _))
  have htake : (d :: ds1).takeWhile isdigit = d :: ds1 := takeWhile_eq_self_of_all _ hdig
  cases neg with
  | true =>
    have hsign : stripSign ('-' :: d :: ds1) = (true, d :: ds1) := rfl
    have hdw : List.dropWhile isspace ('-' :: d :: ds1) = '-' :: d :: ds1 := by
      rw [List.dropWhile_cons]
      simp [isspace]
    simp only [if_true, List.singleton_append]
    unfold stoi
    simp only [hdw, hsign, htake, List.isEmpty_cons, if_true, Bool.false_eq_true, if_false]
  | false =>
    have hsign : stripSign (d :: ds1) = (false, d :: ds1) := by
      unfold stripSign
      split
      · rename_i heq
        exact absurd (List.cons.inj heq).1 hminus
      · rename_i heq
        exact absurd (List.cons.inj heq).1 hplus
      · rfl
    have hdw : List.dropWhile isspace (d :: ds1) = d :: ds1 := by
      rw [List.dropWhile_cons, hsp]
      simp
    simp only [Bool.false_eq_true, if_false, List.nil_append]
    unfold stoi
    simp only [hdw, hsign, htake, List.isEmpty_cons, Bool.false_eq_true, if_false]

namespace Variant

/-- C17. The method `deserialize` can fail only under the `int:` tag: for every
text `s` that does not begin with `int:`, `deserialize(s)` returns a `Variant`
and throws nothing. -/
theorem deserialize_returns_without_int_tag (s : CppString)
    (hint : ¬ "int:".toList <+: s) : ∃ v : Variant, deserialize s = .ok v := by
  by_cases hnil : s = "nil".toList
  · exact ⟨Variant.new, by rw [hnil]; decide⟩
  by_cases hb : "bool:".toList <+: s
  · obtain ⟨r, rfl⟩ := hb
    exact ⟨_, deserialize_bool r⟩
  by_cases hs : "string:".toList <+: s
  · obtain ⟨r, rfl⟩ := hs
    exact ⟨_, deserialize_string r⟩
  exact ⟨_, deserialize_other s hnil hb hint hs⟩

/-- Instances of C17: `bool:maybe`, `string:int:x`, `Int:x` and the empty
text do not begin with `int:`, and `deserialize` returns on each. -/
theorem deserialize_returns_without_int_tag_witness :
    (¬ "int:".toList <+: "bool:maybe".toList ∧
      ∃ v : Variant, deserialize "bool:maybe".toList = .ok v) ∧
    (∃ v : Variant, deserialize "string:int:x".toList = .ok v) ∧
    (∃ v : Variant, deserialize "Int:x".toList = .ok v) ∧
    (∃ v : Variant, deserialize [] = .ok v) :=
  ⟨⟨by decide, deserialize_returns_without_int_tag "bool:maybe".toList (by decide)⟩,
   deserialize_returns_without_int_tag "string:int:x".toList (by decide),
   deserialize_returns_without_int_tag "Int:x".toList (by decide),
   deserialize_returns_without_int_tag [] (by decide)⟩

/-- C18. Integers out of range are rejected, not wrapped: when `r` is an
optional `-` followed by a non-empty run of decimal digits and the number it
denotes is above `INT_MAX` or below `INT_MIN`, `deserialize("int:" + r)` throws
`std::out_of_range` and returns no `Variant`. -/
theorem deserialize_int_out_of_range (neg : Bool) (ds : CppString) (hne : ds ≠ [])
    (hdig : ∀ c ∈ ds, isdigit c = true)
    (hrange : INT_MAX < (if neg then -(digitsValue 0 ds : Int) else (digitsValue 0 ds : Int)) ∨
      (if neg then -(digitsValue 0 ds : Int) else (digitsValue 0 ds : Int)) < INT_MIN) :
    isIntLiteral ((if neg then ['-'] else []) ++ ds) = true ∧
    deserialize ("int:".toList ++ ((if neg then ['-'] else []) ++ ds)) =
      .error .out_of_range := by
  constructor
  · obtain ⟨d, ds1, rfl⟩ := List.exists_cons_of_ne_nil hne
    have hall : (d :: ds1).all isdigit = true := List.all_eq_true.mpr hdig
    cases neg with
    | true =>
      show (!(d :: ds1).isEmpty && (d :: ds1).all isdigit) = true
      rw [hall]
      rfl
    | false =>
      have hminus := (isdigit_not_space_sign d (hdig d (List.mem_cons_self _ _))).2.1
      simp only [Bool.false_eq_true, if_false, List.nil_append]
      unfold isIntLiteral
      split
      · rename_i heq
        exact absurd (List.cons.inj heq).1 hminus
      · rw [hall]
        rfl
  · rw [deserialize_int, stoi_literal neg ds hne hdig]
    have hnot : ¬ (INT_MIN ≤ (if neg then -(digitsValue 0 ds : Int) else (digitsValue 0 ds : Int)) ∧
        (if neg then -(digitsValue 0 ds : Int) else (digitsValue 0 ds : Int)) ≤ INT_MAX) := by
      rintro ⟨h1, h2⟩
      rcases hrange with h | h
      · exact absurd h2 (not_le.mpr h)
      · exact absurd h1 (not_le.mpr h)
    rw [if_neg hnot]
    rfl

/-- Instances of C18: `int:2147483648` and `int:-2147483649` make `deserialize`
throw `std::out_of_range`. -/
theorem deserialize_int_out_of_range_witness :
    deserialize "int:2147483648".toList = .error .out_of_range ∧
    deserialize "int:-2147483649".toList = .error .out_of_range :=
  ⟨(deserialize_int_out_of_range false "2147483648".toList (by decide) (by decide)
      (by decide)).2,
   (deserialize_int_out_of_range true "2147483649".toList (by decide) (by decide)
      (by decide)).2⟩

/-- C19. The `default:` branch of `serialize` is not reached: on every
`Variant`, hence on every one that a constructor or `deserialize` produces, the
tag is one of the four enumerators, so the `switch` takes one of its four
cases; the result is never the empty text; it is `nil` for `TYPE_NIL`, begins
with `bool:` for `TYPE_BOOL`, with `int:` for `TYPE_INT` and with `string:` for
`TYPE_STRING`, and in each case it is none of the other three forms. -/
theorem serialize_default_unreachable (v : Variant) :
    v.type.toNat < 4 ∧ v.serialize = serialize_switch v.type.toNat v ∧
    v.serialize ≠ [] ∧
    (v.serialize = "nil".toList ↔ v.get_type = .TYPE_NIL) ∧
    ("bool:".toList <+: v.serialize ↔ v.get_type = .TYPE_BOOL) ∧
    ("int:".toList <+: v.serialize ↔ v.get_type = .TYPE_INT) ∧
    ("string:".toList <+: v.serialize ↔ v.get_type = .TYPE_STRING) := by
  obtain ⟨t, d, str⟩ := v
  cases t <;>
    simp [serialize, serialize_switch, VariantType.toNat, get_type]

end Variant

end MinimalVariant
